import Mathlib

/-!
Verification of the phf provider/hook framework core
(`src/phf/provider.py`, `src/phf/phfsystem.py`,
`src/ProviderHookFramework/abstracthook.py`).

Queues (`asyncio.Queue`, `queue.Queue`) are modelled as FIFO lists:
`put`/`put_nowait` appends at the tail, `get` removes the head.  Hook and
provider loops are modelled as explicit step functions over record states,
and concurrent interleavings as explicit schedules (lists of hook indices).
Python dictionaries are modelled as association lists where an update
prepends and lookup finds the most recent binding.
-/

/-! ## Model of one provider cycle with attached hooks

From `src/phf/provider.py`: `AbstractContentProvider._notify_all_hooks`
(lines 186-193), `AbstractContentProvider._run_result_callback`
(lines 94-105), `AbstractHook.cycle_call`
(`src/ProviderHookFramework/abstracthook.py` lines 68-78) and
`PeriodicContentProvider.cycle` (lines 244-254).

The state keeps, positionally aligned with the registration order of the
hooks, the contents of each hook's straight (provider → hook) queue and of
each callback (hook → provider) queue.  Hook `i`'s transform is
`acts.get? i`. -/

namespace Cycle

structure CState (α β : Type) where
  straight : List (List α)
  callback : List (List β)
deriving Repr, DecidableEq

/-- `AbstractContentProvider._notify_all_hooks` (provider.py 186-193):
`for queue in self._asyncio_straight_queues: queue.put_nowait(data)`. -/
def notify_all_hooks (d : α) (s : CState α β) : CState α β :=
  { s with straight := s.straight.map (fun q => q ++ [d]) }

/-- Replace the element at index `i` by `f` of it; out of range, no change. -/
def modifyAt (l : List α) (i : Nat) (f : α → α) : List α :=
  match l.get? i with
  | some x => l.set i (f x)
  | none => l

/-- One iteration of hook `i`'s loop, `AbstractHook.cycle_call`
(abstracthook.py 68-78): `target = await self.get_straight_queue().get();
result = await self.hook_action(target);
self.get_callback_queue().put_nowait(result)`.  A hook whose straight
queue is empty is suspended on `get` and its step changes nothing. -/
def hook_step (acts : List (α → β)) (i : Nat) (s : CState α β) : CState α β :=
  match s.straight.get? i, acts.get? i with
  | some (d :: rest), some act =>
      { straight := s.straight.set i rest
        callback := modifyAt s.callback i (fun q => q ++ [act d]) }
  | _, _ => s

/-- Run the hook loops in an arbitrary interleaving order (completion
order), one loop iteration per schedule entry. -/
def run_sched (acts : List (α → β)) : List Nat → CState α β → CState α β
  | [], s => s
  | i :: rest, s => run_sched acts rest (hook_step acts i s)

/-- `asyncio.gather(*[queue.get() for queue in self._asyncio_callback_queues])`
(provider.py 100): wait for one item from every callback queue; the result
list is aligned to the argument (registration) order.  `none` models the
provider being suspended because some hook has not yet produced a result. -/
def gather : List (List β) → Option (List β × List (List β))
  | [] => some ([], [])
  | [] :: _ => none
  | (r :: rest) :: qs => (gather qs).map (fun p => (r :: p.1, rest :: p.2))

/-- `AbstractContentProvider._run_result_callback` (provider.py 94-105):
with callback, gather one result per hook; without, drain every callback
queue and return nothing. -/
def run_result_callback (is_with_callback : Bool) (s : CState α β) :
    Option (List β) × CState α β :=
  if is_with_callback then
    match gather s.callback with
    | some (vs, qs') => (some vs, { s with callback := qs' })
    | none => (none, s)
  else
    (none, { s with callback := s.callback.map (fun _ => []) })

/-- Fresh positionally-aligned queues for `n` started hooks
(`AbstractContentProvider._start_hook`, provider.py 107-125). -/
def initCState (n : Nat) : CState α β :=
  { straight := List.replicate n [], callback := List.replicate n [] }

/-- The body of one iteration of `PeriodicContentProvider.cycle`
(provider.py 244-254) after `data = await self.get_content()` returned
`d`, for a provider with aggregation enabled (`_is_with_callback`):
broadcast, let the hooks run to completion in schedule order `sched`,
then gather the aggregated results. -/
def one_cycle (acts : List (α → β)) (d : α) (sched : List Nat)
    (s : CState α β) : Option (List β) × CState α β :=
  run_result_callback true (run_sched acts sched (notify_all_hooks d s))

end Cycle

/-! ## Model of `MessageSystem` (`src/phf/provider.py` lines 392-511) -/

namespace Msg

/-- State of a `MessageSystem`.  `input_queue = none` models
`self._input_queue is None`, i.e. the UNINITIALIZED state; `some q`
models the ACTIVE state with active request queue `q`.
`result_map` is the `_result_to_mID_mapping` dict as an association list
(updates prepend; lookup takes the most recent binding), `events` the set
of ids with a registered `threading.Event` in `_needed_output_events`. -/
structure MsgState (α β : Type) where
  tmp_queue : List (α × Nat)
  input_queue : Option (List (α × Nat))
  output_queue : List (β × Nat)
  message_id : Nat
  result_map : List (Nat × β)
  events : List Nat
deriving Repr, DecidableEq

/-- `MessageSystem.__init__` (provider.py 415-428). -/
def initState : MsgState α β :=
  { tmp_queue := []
    input_queue := none
    output_queue := []
    message_id := 0
    result_map := []
    events := [] }

/-- `MessageSystem.stop` (provider.py 448-449): `self.__init__()`. -/
def stop (_ : MsgState α β) : MsgState α β := initState

/-- `MessageSystem.initialize` (provider.py 430-446): create a fresh input
queue, drain `_tmp_queue` into it front to back (`while not
self._tmp_queue.empty(): input_queue.put_nowait(self._tmp_queue.get())`),
install it as `_input_queue`, and create a fresh `_output_queue`.
(The background `_serve_provider_results` task it starts is modelled by
the explicit `serve_one` step.) -/
def initializeMS (s : MsgState α β) : MsgState α β :=
  { s with
    input_queue := some s.tmp_queue
    tmp_queue := []
    output_queue := [] }

/-- `MessageSystem.send_to_provider` (provider.py 451-469): if
`_input_queue is None` put `(data, _message_id)` on `_tmp_queue`, else on
`_input_queue`; then `self._message_id += 1; return self._message_id - 1`. -/
def send_to_provider (s : MsgState α β) (data : α) : Nat × MsgState α β :=
  match s.input_queue with
  | none =>
      (s.message_id,
       { s with
         tmp_queue := s.tmp_queue ++ [(data, s.message_id)]
         message_id := s.message_id + 1 })
  | some q =>
      (s.message_id,
       { s with
         input_queue := some (q ++ [(data, s.message_id)])
         message_id := s.message_id + 1 })

/-- Send a list of payloads in order, collecting the returned ids. -/
def send_many (s : MsgState α β) : List α → List Nat × MsgState α β
  | [] => ([], s)
  | d :: ds =>
    let (i, s') := send_to_provider s d
    let (is, s'') := send_many s' ds
    (i :: is, s'')

/-- Dict read `self._result_to_mID_mapping[message_id]`. -/
def lookup (m : List (Nat × β)) (k : Nat) : Option β :=
  (m.find? (fun p => p.1 == k)).map (fun p => p.2)

/-- One iteration of `MessageSystem._serve_provider_results`
(provider.py 471-478): take `(result, msg_id)` from the output queue,
store it in the mapping and set the event of a waiter for that id (the
event entry itself stays registered; the waiter deletes it). -/
def serve_one (s : MsgState α β) : MsgState α β :=
  match s.output_queue with
  | [] => s
  | (result, msg_id) :: rest =>
      { s with
        output_queue := rest
        result_map := (msg_id, result) :: s.result_map }

/-- Outcome of `retrieve_result`: either the stored value is returned at
once, or the calling thread registers an event for the id and blocks. -/
inductive RetrieveOutcome (β : Type) where
  | immediate (v : β)
  | blocked (message_id : Nat)
deriving Repr, DecidableEq

/-- `MessageSystem.retrieve_result` (provider.py 480-499): under the lock,
if the mapping already holds an answer for `message_id` return it (no
event is registered, the state is untouched); otherwise register the
event and block on `cur_event.wait()`. -/
def retrieve_result (s : MsgState α β) (message_id : Nat) :
    RetrieveOutcome β × MsgState α β :=
  match lookup s.result_map message_id with
  | some v => (RetrieveOutcome.immediate v, s)
  | none =>
      (RetrieveOutcome.blocked message_id,
       { s with events := message_id :: s.events })

/-- Micro-operations appearing in the bodies of `MessageSystem` methods,
used to record which statements run under `with self._lock`. -/
inductive MsgOp where
  | lock_acquire
  | lock_release
  | check_input_queue
  | put_tmp_queue
  | put_input_queue
  | increment_message_id
  | return_message_id
  | drain_tmp_into_input
  | set_input_queue
  | create_serve_task
  | get_output_queue
  | store_result
  | set_event
  | read_result_map
  | register_event
  | wait_event
deriving Repr, DecidableEq

/-- Statement-by-statement transcription of the body of
`MessageSystem.send_to_provider` (provider.py 463-469); `uninitialized`
selects the branch of `if self._input_queue is None`.  The body contains
no `with self._lock` block. -/
def send_to_provider_ops (uninitialized : Bool) : List MsgOp :=
  [MsgOp.check_input_queue,
   if uninitialized then MsgOp.put_tmp_queue else MsgOp.put_input_queue,
   MsgOp.increment_message_id,
   MsgOp.return_message_id]

/-- Statement-by-statement transcription of the body of
`MessageSystem.initialize` (provider.py 435-446): the drain of
`_tmp_queue` and the installation of `_input_queue` run inside
`with self._lock`. -/
def initialize_ops : List MsgOp :=
  [MsgOp.lock_acquire,
   MsgOp.drain_tmp_into_input,
   MsgOp.set_input_queue,
   MsgOp.lock_release,
   MsgOp.create_serve_task]

/-- Statement-by-statement transcription of one iteration of
`MessageSystem._serve_provider_results` (provider.py 473-478). -/
def serve_ops : List MsgOp :=
  [MsgOp.get_output_queue,
   MsgOp.lock_acquire,
   MsgOp.store_result,
   MsgOp.set_event,
   MsgOp.lock_release]

/-- Statement-by-statement transcription of the slow path of
`MessageSystem.retrieve_result` (provider.py 489-499). -/
def retrieve_result_ops : List MsgOp :=
  [MsgOp.lock_acquire,
   MsgOp.read_result_map,
   MsgOp.register_event,
   MsgOp.lock_release,
   MsgOp.wait_event]

/-- Externally invocable operations of a `MessageSystem`, for reasoning
about sequences of calls. -/
inductive SysOp (α : Type) where
  | send (d : α)
  | initialize_op
  | stop_op
  | serve
  | retrieve (k : Nat)
deriving Repr, DecidableEq

def applyOp : SysOp α → MsgState α β → MsgState α β
  | SysOp.send d, s => (send_to_provider s d).2
  | SysOp.initialize_op, s => initializeMS s
  | SysOp.stop_op, s => stop s
  | SysOp.serve, s => serve_one s
  | SysOp.retrieve k, s => (retrieve_result s k).2

def applyOps : List (SysOp α) → MsgState α β → MsgState α β
  | [], s => s
  | op :: ops, s => applyOps ops (applyOp op s)

/-- ACTIVE iff `self._input_queue is not None` (the test
`send_to_provider` branches on). -/
def isActive (s : MsgState α β) : Bool := s.input_queue.isSome

/-- Number of UNINITIALIZED → ACTIVE transitions along a run. -/
def activations : List (SysOp α) → MsgState α β → Nat
  | [], _ => 0
  | op :: ops, s =>
    (if isActive s = false ∧ isActive (applyOp op s) = true then 1 else 0)
    + activations ops (applyOp op s)

end Msg

/-! ## Model of `ComplexContentProvider` (`src/phf/provider.py` 306-389) -/

/-- Dynamically-typed Python values, as far as the squaring scenario
needs them: integers and lists. -/
inductive PyVal where
  | int (n : Nat)
  | list (xs : List PyVal)
deriving Repr

namespace Cpx

/-- State of a running `ComplexContentProvider`: its `MessageSystem`
(whose `_input_queue`/`_output_queue` are shared with the provider after
`initialize`, provider.py 339-345) and its hooks' queues. -/
structure CpxState (α γ δ β : Type) where
  msg : Msg.MsgState α β
  hooks : Cycle.CState γ δ
deriving Repr

/-- One iteration of `ComplexContentProvider.cycle` (provider.py 351-363):
`content, msg_id = await self._input_queue.get()`, preprocess, broadcast
to the hooks, run the hooks (in completion order `sched`), gather one
result per hook, postprocess, and
`await self._output_queue.put((result, msg_id))`.  `none` models the
cycle being suspended (empty input queue or a hook not yet done). -/
def complex_cycle_step (pre : α → γ) (acts : List (γ → δ))
    (post : List δ → β) (sched : List Nat) (s : CpxState α γ δ β) :
    Option (CpxState α γ δ β) :=
  match s.msg.input_queue with
  | some ((content, msg_id) :: rest) =>
    let c := pre content
    let h1 := Cycle.notify_all_hooks c s.hooks
    let h2 := Cycle.run_sched acts sched h1
    match Cycle.run_result_callback true h2 with
    | (some vs, h3) =>
        some
          { msg :=
              { s.msg with
                input_queue := some rest
                output_queue := s.msg.output_queue ++ [(post vs, msg_id)] }
            hooks := h3 }
    | (none, _) => none
  | _ => none

/-- `ComplexContentProvider.preprocess_data` default (provider.py 365-376):
returns the content unchanged. -/
def preprocess_data (content : α) : α := content

/-- `ComplexContentProvider.postprocess_result` default
(provider.py 378-389): returns the list of hook results itself. -/
def postprocess_result (results : List PyVal) : PyVal := PyVal.list results

/-- A hook action squaring its (integer) input. -/
def py_square : PyVal → PyVal
  | PyVal.int n => PyVal.int (n * n)
  | v => v

/-- The squaring scenario: a `ComplexContentProvider` with the single
hook `py_square` and the default pre/postprocessing, started
(`__aenter__` initializes the message system, provider.py 339-345); then
`send_wait_answer(7)` = `send_to_provider(7)` followed by
`retrieve_result` of the returned id (provider.py 501-511), with the
provider cycle and the serve task running in between. -/
def scenario_send_wait_answer : Msg.RetrieveOutcome PyVal :=
  let s0 : CpxState PyVal PyVal PyVal PyVal :=
    { msg := Msg.initializeMS Msg.initState, hooks := Cycle.initCState 1 }
  let p := Msg.send_to_provider s0.msg (PyVal.int 7)
  match complex_cycle_step preprocess_data [py_square] postprocess_result
      [0] { s0 with msg := p.2 } with
  | some s2 => (Msg.retrieve_result (Msg.serve_one s2.msg) p.1).1
  | none => Msg.RetrieveOutcome.blocked p.1

end Cpx

/-! ## Model of provider exit and cancellation
(`AbstractContentProvider.__aexit__`, `src/phf/provider.py` 167-175) -/

namespace Exit

/-- Exception state with which `__aexit__` is entered: no exception,
`asyncio.CancelledError`, or any other exception. -/
inductive ExcKind where
  | noExc
  | cancelledError
  | otherExc
deriving Repr, DecidableEq

/-- A started hook as `__aexit__` sees it.
Modelled from the spec: `AbstractHook.stop` is absent from the copies of
`abstracthook.py` under `src/` although `provider.__aexit__` and the test
suite invoke it; per the spec (§4.2, §5) stopping a hook cancels its task,
modelled as a `stopped` flag. -/
structure RHook where
  stopped : Bool
deriving Repr, DecidableEq

structure PRunState where
  running : Bool
  hooks : List RHook
deriving Repr, DecidableEq

/-- What leaves the provider's cycle task: a clean exit, or an exception
propagating out and terminating it. -/
inductive ExitResult where
  | clean
  | raised (e : ExcKind)
deriving Repr, DecidableEq

/-- `AbstractContentProvider.__aexit__` (provider.py 167-175):
`self._asyncio_running = False; if exc_type is asyncio.CancelledError:
for hook in self._asynio_hooks: hook.stop(); return True` — returning
`True` suppresses the exception, returning `None` (falsy) lets it
propagate. -/
def aexit (s : PRunState) (e : ExcKind) : PRunState × Bool :=
  let s' := { s with running := false }
  match e with
  | ExcKind.cancelledError =>
      ({ s' with hooks := s'.hooks.map (fun _ => { stopped := true }) }, true)
  | _ => (s', false)

/-- The `async with self:` boundary of `cycle`: if the body raised `e`
and `__aexit__` returned a truthy value the exception is suppressed and
the task exits cleanly, otherwise `e` propagates. -/
def handleExit (s : PRunState) (e : ExcKind) : PRunState × ExitResult :=
  let (s', suppress) := aexit s e
  (s',
   if suppress then ExitResult.clean
   else
     match e with
     | ExcKind.noExc => ExitResult.clean
     | e => ExitResult.raised e)

end Exit

/-! ## Model of dynamic hook attachment and broadcast delivery
(`AbstractContentProvider.add_hook` / `_start_hook` /
`_notify_all_hooks`, `src/phf/provider.py` 107-143 and 186-193) -/

namespace Wire

/-- A hook as the wiring code sees it: its straight (inbound) queue, or
`none` while `get_straight_queue` has not yet created it
(abstracthook.py 48-56).  (The callback queue is wired identically and
its behaviour is modelled in the `Cycle` namespace.) -/
structure WHook (α : Type) where
  asyncio_queue : Option (List α)
deriving Repr, DecidableEq

/-- Provider wiring state: `asynio_hooks` is the registration-ordered
hook list, `straight_queues` the positionally-aligned list of wired
queue references (`_asyncio_straight_queues`), as indices into
`asynio_hooks`. -/
structure WState (α : Type) where
  asynio_hooks : List (WHook α)
  straight_queues : List Nat
  running : Bool
deriving Repr, DecidableEq

/-- `AbstractHook.get_straight_queue` (abstracthook.py 48-56): create the
queue if it does not exist yet, then return it. -/
def get_straight_queue (h : WHook α) : WHook α :=
  match h.asyncio_queue with
  | some _ => h
  | none => { asyncio_queue := some [] }

def modifyHook (s : WState α) (i : Nat) (f : WHook α → WHook α) : WState α :=
  { s with asynio_hooks := Cycle.modifyAt s.asynio_hooks i f }

/-- `AbstractContentProvider._start_hook` (provider.py 107-125) for the
hook at position `i`: capture (creating if necessary) its straight queue
and append it to `_asyncio_straight_queues`.  (The callback queue and
hook task are captured and spawned alongside; only inbound delivery is
tracked here.) -/
def start_hook (s : WState α) (i : Nat) : WState α :=
  let s' := modifyHook s i get_straight_queue
  { s' with straight_queues := s'.straight_queues ++ [i] }

/-- `AbstractContentProvider.add_hook` (provider.py 135-143):
`self._asynio_hooks.append(hook); if self._asyncio_running:
self._start_hook(hook)`. -/
def add_hook (s : WState α) (h : WHook α) : WState α :=
  let s' := { s with asynio_hooks := s.asynio_hooks ++ [h] }
  if s.running then start_hook s' s.asynio_hooks.length else s'

/-- `queue.put_nowait(data)` on each wired queue reference in `w`, in
order. -/
def put_all (w : List Nat) (d : α) (s : WState α) : WState α :=
  match w with
  | [] => s
  | i :: rest =>
      put_all rest d
        (modifyHook s i
          (fun h => { asyncio_queue := h.asyncio_queue.map (fun q => q ++ [d]) }))

/-- `AbstractContentProvider._notify_all_hooks` (provider.py 186-193):
`put_nowait(data)` on every queue currently in
`_asyncio_straight_queues`. -/
def notify_all_hooks (s : WState α) (d : α) : WState α :=
  put_all s.straight_queues d s

/-- Broadcast each item of `ds` in turn. -/
def broadcasts (s : WState α) : List α → WState α
  | [] => s
  | d :: ds => broadcasts (notify_all_hooks s d) ds

end Wire

/-! ## Model of queue-getter identity
(`AbstractHook.get_straight_queue` / `get_callback_queue`,
`src/ProviderHookFramework/abstracthook.py` 48-66).

Queue identity matters here, so queues are modelled as allocated
references: an allocator hands out fresh ids. -/

namespace HookQ

structure QAlloc where
  next_id : Nat
deriving Repr, DecidableEq

/-- `_asyncio_queue` and `_callback_queue` of a hook, `none` until the
getter first creates them (abstracthook.py 38-43). -/
structure HState where
  asyncio_queue : Option Nat
  callback_queue : Option Nat
deriving Repr, DecidableEq

/-- `AbstractHook.get_straight_queue` (abstracthook.py 48-56):
`if self._asyncio_queue is None: self._asyncio_queue = asyncio.Queue();
return self._asyncio_queue`. -/
def get_straight_queue (h : HState) (w : QAlloc) : Nat × HState × QAlloc :=
  match h.asyncio_queue with
  | some q => (q, h, w)
  | none =>
      (w.next_id,
       { h with asyncio_queue := some w.next_id },
       { next_id := w.next_id + 1 })

/-- `AbstractHook.get_callback_queue` (abstracthook.py 58-66). -/
def get_callback_queue (h : HState) (w : QAlloc) : Nat × HState × QAlloc :=
  match h.callback_queue with
  | some q => (q, h, w)
  | none =>
      (w.next_id,
       { h with callback_queue := some w.next_id },
       { next_id := w.next_id + 1 })

end HookQ

/-! ## Model of the collection getters returning copies
(`AbstractContentProvider.get_aliases`, provider.py 177-184;
`AbstractHook.get_aliases`, abstracthook.py 97-104;
`PHFSystem.get_providers`, phfsystem.py 39-40).

Aliasing matters here, so Python lists are modelled as addresses into a
heap of list contents; `copy.deepcopy(cls._alias)` and
`self._providers[:]` both allocate a fresh list object holding the same
contents. -/

namespace CopyM

structure Heap (α : Type) where
  store : List (List α)
deriving Repr, DecidableEq

/-- Contents of the list object at address `a`. -/
def readList (h : Heap α) (a : Nat) : List α := (h.store.get? a).getD []

/-- In-place mutation of the list object at address `a` (append, remove,
overwrite — any rewriting of its contents). -/
def writeList (h : Heap α) (a : Nat) (l : List α) : Heap α :=
  { store := h.store.set a l }

/-- Allocate a fresh list object. -/
def allocList (h : Heap α) (l : List α) : Nat × Heap α :=
  (h.store.length, { store := h.store ++ [l] })

/-- `AbstractContentProvider.get_aliases` (provider.py 177-184):
`return copy.deepcopy(cls._alias)` — a fresh list with the same
contents (alias strings are immutable, so the copy depth beyond the
top-level list is not observable here). -/
def provider_get_aliases (h : Heap α) (alias_addr : Nat) : Nat × Heap α :=
  allocList h (readList h alias_addr)

/-- `AbstractHook.get_aliases` (abstracthook.py 97-104): same shape. -/
def hook_get_aliases (h : Heap α) (alias_addr : Nat) : Nat × Heap α :=
  allocList h (readList h alias_addr)

/-- `PHFSystem.get_providers` (phfsystem.py 39-40):
`return self._providers[:]` — a fresh list with the same elements. -/
def get_providers (h : Heap α) (providers_addr : Nat) : Nat × Heap α :=
  allocList h (readList h providers_addr)

end CopyM

/-! # Theorems -/

/-! ## Cycle lemmas and C1 -/

namespace Cycle

variable {α β : Type}

lemma lt_of_get?_some {l : List α} {i : Nat} {a : α} (h : l.get? i = some a) :
    i < l.length := by
  rcases Nat.lt_or_ge i l.length with hlt | hge
  · exact hlt
  · rw [List.get?_eq_none.mpr hge] at h
    cases h

lemma get?_set_self_of_lt {l : List α} {i : Nat} (a : α) (hlt : i < l.length) :
    (l.set i a).get? i = some a := by
  rw [List.get?_eq_getElem?]
  exact List.getElem?_set_self hlt

lemma modifyAt_get?_self (l : List α) (i : Nat) (f : α → α) :
    (modifyAt l i f).get? i = (l.get? i).map f := by
  unfold modifyAt
  cases h : l.get? i with
  | none => exact h
  | some x => rw [get?_set_self_of_lt (f x) (lt_of_get?_some h)]; rfl

lemma modifyAt_get?_ne (l : List α) (i j : Nat) (f : α → α) (hij : i ≠ j) :
    (modifyAt l i f).get? j = l.get? j := by
  unfold modifyAt
  cases h : l.get? i with
  | none => rfl
  | some x => exact List.get?_set_ne _ _ hij

lemma modifyAt_length (l : List α) (i : Nat) (f : α → α) :
    (modifyAt l i f).length = l.length := by
  unfold modifyAt
  cases h : l.get? i <;> simp

lemma hook_step_get?_ne (acts : List (α → β)) (i j : Nat) (s : CState α β)
    (hij : i ≠ j) :
    ((hook_step acts i s).straight.get? j = s.straight.get? j) ∧
    ((hook_step acts i s).callback.get? j = s.callback.get? j) := by
  unfold hook_step
  cases hs : s.straight.get? i with
  | none => exact ⟨rfl, rfl⟩
  | some q =>
    cases q with
    | nil => exact ⟨rfl, rfl⟩
    | cons d rest =>
      cases ha : acts.get? i with
      | none => exact ⟨rfl, rfl⟩
      | some act => exact ⟨List.get?_set_ne _ _ hij, modifyAt_get?_ne _ _ _ _ hij⟩

lemma hook_step_length (acts : List (α → β)) (i : Nat) (s : CState α β) :
    ((hook_step acts i s).straight.length = s.straight.length) ∧
    ((hook_step acts i s).callback.length = s.callback.length) := by
  unfold hook_step
  cases hs : s.straight.get? i with
  | none => exact ⟨rfl, rfl⟩
  | some q =>
    cases q with
    | nil => exact ⟨rfl, rfl⟩
    | cons d rest =>
      cases ha : acts.get? i with
      | none => exact ⟨rfl, rfl⟩
      | some act => simp [modifyAt_length]

lemma run_sched_length (acts : List (α → β)) (sched : List Nat) (s : CState α β) :
    ((run_sched acts sched s).straight.length = s.straight.length) ∧
    ((run_sched acts sched s).callback.length = s.callback.length) := by
  induction sched generalizing s with
  | nil => exact ⟨rfl, rfl⟩
  | cons j rest ih =>
    have h1 := hook_step_length acts j s
    have h2 := ih (hook_step acts j s)
    exact ⟨h2.1.trans h1.1, h2.2.trans h1.2⟩

lemma run_sched_get?_not_mem (acts : List (α → β)) (sched : List Nat) (i : Nat)
    (s : CState α β) (hni : i ∉ sched) :
    ((run_sched acts sched s).straight.get? i = s.straight.get? i) ∧
    ((run_sched acts sched s).callback.get? i = s.callback.get? i) := by
  induction sched generalizing s with
  | nil => exact ⟨rfl, rfl⟩
  | cons j rest ih =>
    have hji : j ≠ i := fun h => hni (h ▸ List.mem_cons_self j rest)
    have h1 := hook_step_get?_ne acts j i s hji
    have h2 := ih (hook_step acts j s) (fun h => hni (List.mem_cons_of_mem j h))
    exact ⟨h2.1.trans h1.1, h2.2.trans h1.2⟩

lemma run_sched_comp_once (acts : List (α → β)) (sched : List Nat) (i : Nat)
    (d : α) (act : α → β) (s : CState α β)
    (hcount : sched.count i = 1)
    (hact : acts.get? i = some act)
    (hstr : s.straight.get? i = some [d])
    (hcb : s.callback.get? i = some []) :
    ((run_sched acts sched s).straight.get? i = some []) ∧
    ((run_sched acts sched s).callback.get? i = some [act d]) := by
  induction sched generalizing s with
  | nil => simp at hcount
  | cons j rest ih =>
    by_cases hji : j = i
    · subst hji
      rw [List.count_cons_self] at hcount
      have hnotmem : j ∉ rest :=
        List.not_mem_of_count_eq_zero (by omega)
      have hstep_str : (hook_step acts j s).straight.get? j = some [] := by
        simp only [hook_step, hstr, hact]
        exact get?_set_self_of_lt [] (lt_of_get?_some hstr)
      have hstep_cb : (hook_step acts j s).callback.get? j = some [act d] := by
        simp only [hook_step, hstr, hact]
        rw [modifyAt_get?_self, hcb]
        rfl
      have hrest := run_sched_get?_not_mem acts rest j (hook_step acts j s) hnotmem
      exact ⟨hrest.1.trans hstep_str, hrest.2.trans hstep_cb⟩
    · have hcount' : rest.count i = 1 := by
        rw [List.count_cons_of_ne (Ne.symm hji)] at hcount
        exact hcount
      have h1 := hook_step_get?_ne acts j i s hji
      exact ih (hook_step acts j s) hcount' (h1.1.trans hstr) (h1.2.trans hcb)

lemma get?_replicate_eq (x : α) (n i : Nat) :
    (List.replicate n x).get? i = if i < n then some x else none := by
  rw [List.get?_eq_getElem?, List.getElem?_replicate]

lemma gather_map_singleton (acts : List (α → β)) (d : α) :
    gather (acts.map (fun a => [a d]))
      = some (acts.map (fun a => a d), acts.map (fun _ => [])) := by
  induction acts with
  | nil => rfl
  | cons a rest ih => simp [gather, ih]

lemma map_nil_eq_replicate (acts : List (α → β)) :
    (acts.map fun _ => ([] : List β)) = List.replicate acts.length [] := by
  induction acts with
  | nil => rfl
  | cons a rest ih => simp [List.replicate_succ, ih]

lemma run_sched_replicate (acts : List (α → β)) (d : α) (sched : List Nat)
    (hperm : sched.Perm (List.range acts.length)) :
    run_sched acts sched
      ({ straight := List.replicate acts.length [d]
         callback := List.replicate acts.length [] } : CState α β)
      = { straight := List.replicate acts.length []
          callback := acts.map (fun a => [a d]) } := by
  have hcount : ∀ i, i < acts.length → sched.count i = 1 := by
    intro i hi
    rw [hperm.count_eq]
    exact List.count_eq_one_of_mem (List.nodup_range acts.length)
      (List.mem_range.mpr hi)
  have hlen := run_sched_length acts sched
    ({ straight := List.replicate acts.length [d]
       callback := List.replicate acts.length [] } : CState α β)
  have hcomp : ∀ i, i < acts.length → ∀ act, acts.get? i = some act →
      ((run_sched acts sched
        ({ straight := List.replicate acts.length [d]
           callback := List.replicate acts.length [] } : CState α β)).straight.get? i
        = some []) ∧
      ((run_sched acts sched
        ({ straight := List.replicate acts.length [d]
           callback := List.replicate acts.length [] } : CState α β)).callback.get? i
        = some [act d]) := by
    intro i hi act hai
    exact run_sched_comp_once acts sched i d act
      ({ straight := List.replicate acts.length [d]
         callback := List.replicate acts.length [] } : CState α β)
      (hcount i hi) hai
      (by simp [get?_replicate_eq, hi])
      (by simp [get?_replicate_eq, hi])
  have hstraight_len :
      (run_sched acts sched
        ({ straight := List.replicate acts.length [d]
           callback := List.replicate acts.length [] } : CState α β)).straight.length
      = acts.length := by simpa using hlen.1
  have hcallback_len :
      (run_sched acts sched
        ({ straight := List.replicate acts.length [d]
           callback := List.replicate acts.length [] } : CState α β)).callback.length
      = acts.length := by simpa using hlen.2
  have hstraight :
      (run_sched acts sched
        ({ straight := List.replicate acts.length [d]
           callback := List.replicate acts.length [] } : CState α β)).straight
      = List.replicate acts.length [] := by
    apply List.ext_get?
    intro i
    rw [get?_replicate_eq]
    by_cases hi : i < acts.length
    · cases hai : acts.get? i with
      | none =>
          exact absurd (List.get?_eq_none.mp hai) (Nat.not_le.mpr hi)
      | some act =>
          rw [(hcomp i hi act hai).1]
          simp [hi]
    · have hge : acts.length ≤ i := Nat.not_lt.mp hi
      rw [List.get?_eq_none.mpr (by rw [hstraight_len]; exact hge)]
      simp [hi]
  have hcallback :
      (run_sched acts sched
        ({ straight := List.replicate acts.length [d]
           callback := List.replicate acts.length [] } : CState α β)).callback
      = acts.map (fun a => [a d]) := by
    apply List.ext_get?
    intro i
    rw [List.get?_map]
    by_cases hi : i < acts.length
    · cases hai : acts.get? i with
      | none =>
          exact absurd (List.get?_eq_none.mp hai) (Nat.not_le.mpr hi)
      | some act =>
          rw [(hcomp i hi act hai).2]
          rfl
    · have hge : acts.length ≤ i := Nat.not_lt.mp hi
      rw [List.get?_eq_none.mpr (by rw [hcallback_len]; exact hge),
          List.get?_eq_none.mpr hge]
      rfl
  rw [← hstraight, ← hcallback]

lemma one_cycle_initCState (acts : List (α → β)) (d : α) (sched : List Nat)
    (hperm : sched.Perm (List.range acts.length)) :
    one_cycle acts d sched (initCState acts.length)
      = (some (acts.map (fun a => a d)), initCState acts.length) := by
  have hnotify : notify_all_hooks d (initCState acts.length : CState α β)
      = { straight := List.replicate acts.length [d]
          callback := List.replicate acts.length [] } := by
    simp [notify_all_hooks, initCState, List.map_replicate]
  unfold one_cycle
  rw [hnotify, run_sched_replicate acts d sched hperm]
  simp only [run_result_callback, if_pos, gather_map_singleton]
  rw [map_nil_eq_replicate]
  rfl

/-- C1: for a provider with aggregation enabled and any number `N` of
attached hooks, one cycle on a content item `d` aggregates exactly one
result per hook into a list of length `N` whose `i`-th element is hook
`i`'s action applied to `d`, aligned to hook-registration order and the
same for every completion order (`sched`) of the hook loops; in
particular two doubling hooks on content `5` yield `[10, 10]`. -/
theorem periodic_cycle_aggregation (acts : List (α → β)) (d : α)
    (sched : List Nat) (hperm : sched.Perm (List.range acts.length)) :
    (one_cycle acts d sched (initCState acts.length)).1
      = some (acts.map (fun a => a d)) := by
  rw [one_cycle_initCState acts d sched hperm]

/-- C1 witness: two doubling hooks, content `5`, completion order `[1, 0]`
(reverse of registration order): the aggregated list is `[10, 10]`. -/
theorem periodic_cycle_aggregation_witness :
    ([1, 0].Perm (List.range 2)) ∧
    (one_cycle [fun x => 2 * x, fun x => 2 * x] (5 : Nat) [1, 0]
        (initCState 2)).1 = some [10, 10] :=
  ⟨by decide,
   (periodic_cycle_aggregation [fun x => 2 * x, fun x => 2 * x] 5 [1, 0]
      (by decide)).trans rfl⟩

end Cycle

/-! ## MessageSystem lemmas and C4, C5, C6, C7 -/

namespace Msg

variable {α β : Type}

lemma send_to_provider_fst (s : MsgState α β) (d : α) :
    (send_to_provider s d).1 = s.message_id := by
  unfold send_to_provider
  cases h : s.input_queue <;> rfl

lemma send_to_provider_message_id (s : MsgState α β) (d : α) :
    (send_to_provider s d).2.message_id = s.message_id + 1 := by
  unfold send_to_provider
  cases h : s.input_queue <;> rfl

lemma send_many_cons (s : MsgState α β) (d : α) (ds : List α) :
    send_many s (d :: ds)
      = ((send_to_provider s d).1 :: (send_many (send_to_provider s d).2 ds).1,
         (send_many (send_to_provider s d).2 ds).2) := by
  rfl

lemma send_many_ids (ds : List α) (s : MsgState α β) :
    (send_many s ds).1 = List.range' s.message_id ds.length ∧
    (send_many s ds).2.message_id = s.message_id + ds.length := by
  induction ds generalizing s with
  | nil => exact ⟨rfl, rfl⟩
  | cons d ds ih =>
    rw [send_many_cons]
    have h := ih (send_to_provider s d).2
    rw [send_to_provider_message_id] at h
    constructor
    · show _ :: _ = List.range' s.message_id (ds.length + 1)
      rw [List.range'_succ, send_to_provider_fst, h.1]
    · show (send_many (send_to_provider s d).2 ds).2.message_id = _
      rw [h.2, List.length_cons]
      omega

lemma pairwise_lt_range' (n s : Nat) :
    (List.range' s n).Pairwise (· < ·) := by
  induction n generalizing s with
  | zero => exact List.Pairwise.nil
  | succ n ih =>
    rw [List.range'_succ]
    refine List.Pairwise.cons ?_ (ih (s + 1))
    intro b hb
    have := (List.mem_range'_1.mp hb).1
    omega

/-- C4 counterexample (mutual-exclusion conjunct): the transcribed body of
`send_to_provider` contains no lock acquisition or release in either
branch, while `initialize`, the serve loop and `retrieve_result` do take
the lock — the id assignment `self._message_id += 1` is not performed
under mutual exclusion. -/
theorem send_to_provider_no_mutual_exclusion :
    (MsgOp.lock_acquire ∉ send_to_provider_ops true) ∧
    (MsgOp.lock_acquire ∉ send_to_provider_ops false) ∧
    (MsgOp.lock_release ∉ send_to_provider_ops true) ∧
    (MsgOp.lock_release ∉ send_to_provider_ops false) ∧
    MsgOp.lock_acquire ∈ initialize_ops ∧
    MsgOp.lock_acquire ∈ serve_ops ∧
    MsgOp.lock_acquire ∈ retrieve_result_ops := by
  decide

/-- C4 (amended): each call to `send_to_provider` returns the current
counter value as the message id and increments the counter (without
acquiring the mutex — see the counterexample); across any sequence of
sends the returned ids are `counter, counter+1, …`, strictly increasing,
pairwise distinct and never reused. -/
theorem send_ids_monotone_unique (s : MsgState α β) (d : α) (ds : List α) :
    (send_to_provider s d).1 = s.message_id ∧
    (send_to_provider s d).2.message_id = s.message_id + 1 ∧
    (send_many s ds).1 = List.range' s.message_id ds.length ∧
    List.Pairwise (· < ·) (send_many s ds).1 ∧
    (send_many s ds).1.Nodup ∧
    (send_many s ds).2.message_id = s.message_id + ds.length := by
  have h := send_many_ids ds s
  have hpair : List.Pairwise (· < ·) (send_many s ds).1 := by
    rw [h.1]
    exact pairwise_lt_range' ds.length s.message_id
  exact ⟨send_to_provider_fst s d, send_to_provider_message_id s d, h.1,
    hpair, hpair.imp (fun hlt => Nat.ne_of_lt hlt), h.2⟩

/-- C5: if a result for an id is already stored, `retrieve_result`
returns it immediately, leaves the state untouched (in particular no
wait handle is registered), and a repeated call for the same id returns
the same cached value again. -/
theorem retrieve_result_cached (s : MsgState α β) (k : Nat) (v : β)
    (hres : lookup s.result_map k = some v) :
    retrieve_result s k = (RetrieveOutcome.immediate v, s) ∧
    retrieve_result (retrieve_result s k).2 k
      = (RetrieveOutcome.immediate v, s) := by
  have h1 : retrieve_result s k = (RetrieveOutcome.immediate v, s) := by
    unfold retrieve_result
    rw [hres]
  refine ⟨h1, ?_⟩
  rw [h1]
  exact h1

/-- C5 witness: a message system whose mapping stores `42` for id `3`:
both the first and a repeated `retrieve_result 3` return `42` at once. -/
theorem retrieve_result_cached_witness :
    lookup (⟨[], none, [], 4, [(3, 42)], []⟩ : MsgState Nat Nat).result_map 3
      = some 42 ∧
    (retrieve_result (⟨[], none, [], 4, [(3, 42)], []⟩ : MsgState Nat Nat) 3
      = (RetrieveOutcome.immediate 42,
         (⟨[], none, [], 4, [(3, 42)], []⟩ : MsgState Nat Nat)) ∧
     retrieve_result
        (retrieve_result (⟨[], none, [], 4, [(3, 42)], []⟩ : MsgState Nat Nat) 3).2 3
      = (RetrieveOutcome.immediate 42,
         (⟨[], none, [], 4, [(3, 42)], []⟩ : MsgState Nat Nat))) :=
  ⟨rfl, retrieve_result_cached _ 3 42 rfl⟩

/-- C6: every message sent while the system is UNINITIALIZED is appended
to the pre-init buffer in send order (payloads paired with their
consecutive ids), and `initialize` transfers the whole buffer into the
fresh active request queue in exactly that order, emptying the buffer. -/
theorem preinit_buffering_and_transfer (ds : List α) (s : MsgState α β)
    (h : s.input_queue = none) :
    (send_many s ds).2.tmp_queue
      = s.tmp_queue ++ ds.zip (List.range' s.message_id ds.length) ∧
    (send_many s ds).2.input_queue = none ∧
    (initializeMS (send_many s ds).2).input_queue
      = some ((send_many s ds).2.tmp_queue) ∧
    (initializeMS (send_many s ds).2).tmp_queue = [] := by
  refine ⟨?_, ?_, rfl, rfl⟩
  · induction ds generalizing s with
    | nil => simp [send_many]
    | cons d ds ih =>
      rw [send_many_cons]
      show (send_many (send_to_provider s d).2 ds).2.tmp_queue = _
      have hsend : send_to_provider s d
          = (s.message_id,
             { s with
               tmp_queue := s.tmp_queue ++ [(d, s.message_id)]
               message_id := s.message_id + 1 }) := by
        unfold send_to_provider
        rw [h]
      rw [hsend]
      rw [ih { s with
               tmp_queue := s.tmp_queue ++ [(d, s.message_id)]
               message_id := s.message_id + 1 } h]
      simp [List.append_assoc, List.range'_succ]
  · induction ds generalizing s with
    | nil => exact h
    | cons d ds ih =>
      rw [send_many_cons]
      show (send_many (send_to_provider s d).2 ds).2.input_queue = none
      have hsend : (send_to_provider s d).2.input_queue = none := by
        unfold send_to_provider
        rw [h]
      exact ih (send_to_provider s d).2 hsend

/-- C6 witness: two messages sent to a fresh (UNINITIALIZED) system are
buffered as `[(10, 0), (20, 1)]` and transferred in that order. -/
theorem preinit_buffering_and_transfer_witness :
    (initState : MsgState Nat Nat).input_queue = none ∧
    ((send_many (initState : MsgState Nat Nat) [10, 20]).2.tmp_queue
        = (initState : MsgState Nat Nat).tmp_queue
          ++ [10, 20].zip (List.range' (initState : MsgState Nat Nat).message_id 2) ∧
     (send_many (initState : MsgState Nat Nat) [10, 20]).2.input_queue = none ∧
     (initializeMS (send_many (initState : MsgState Nat Nat) [10, 20]).2).input_queue
        = some ((send_many (initState : MsgState Nat Nat) [10, 20]).2.tmp_queue) ∧
     (initializeMS (send_many (initState : MsgState Nat Nat) [10, 20]).2).tmp_queue
        = []) :=
  ⟨rfl, preinit_buffering_and_transfer [10, 20] initState rfl⟩

/-- C7 counterexample: after `initialize` the system is ACTIVE; `stop`
(which re-runs `__init__`) returns it to UNINITIALIZED, and a further
`initialize` makes it ACTIVE a second time — the UNINITIALIZED→ACTIVE
transition is not unique over sequences containing `stop`. -/
theorem ms_reactivation_after_stop :
    isActive (applyOps [SysOp.initialize_op] (initState : MsgState Nat Nat))
      = true ∧
    isActive (applyOps [SysOp.initialize_op, SysOp.stop_op]
        (initState : MsgState Nat Nat)) = false ∧
    isActive (applyOps [SysOp.initialize_op, SysOp.stop_op, SysOp.initialize_op]
        (initState : MsgState Nat Nat)) = true :=
  ⟨rfl, rfl, rfl⟩

lemma applyOp_active (op : SysOp α) (s : MsgState α β)
    (hop : op ≠ SysOp.stop_op) (h : isActive s = true) :
    isActive (applyOp op s) = true := by
  cases op with
  | send d =>
    show isActive (send_to_provider s d).2 = true
    unfold send_to_provider
    cases hq : s.input_queue with
    | none => rw [isActive, hq] at h; cases h
    | some q => simp [isActive]
  | initialize_op => simp [applyOp, initializeMS, isActive]
  | stop_op => exact absurd rfl hop
  | serve =>
    show isActive (serve_one s) = true
    unfold serve_one
    cases ho : s.output_queue with
    | nil => exact h
    | cons p rest =>
      cases p with
      | mk result msg_id => simpa [isActive] using h
  | retrieve k =>
    show isActive (retrieve_result s k).2 = true
    unfold retrieve_result
    cases hr : lookup s.result_map k with
    | some v => exact h
    | none => simpa [isActive] using h

lemma applyOps_active : ∀ (ops : List (SysOp α)) (s : MsgState α β),
    SysOp.stop_op ∉ ops → isActive s = true →
    isActive (applyOps ops s) = true := by
  intro ops
  induction ops with
  | nil => intro s _ h; exact h
  | cons op rest ih =>
    intro s hstop h
    have hop : op ≠ SysOp.stop_op :=
      fun he => hstop (he ▸ List.mem_cons_self op rest)
    exact ih (applyOp op s) (fun hm => hstop (List.mem_cons_of_mem op hm))
      (applyOp_active op s hop h)

lemma activations_zero_of_active : ∀ (ops : List (SysOp α)) (s : MsgState α β),
    SysOp.stop_op ∉ ops → isActive s = true → activations ops s = 0 := by
  intro ops
  induction ops with
  | nil => intro s _ _; rfl
  | cons op rest ih =>
    intro s hstop h
    have hop : op ≠ SysOp.stop_op :=
      fun he => hstop (he ▸ List.mem_cons_self op rest)
    have h' := applyOp_active op s hop h
    unfold activations
    rw [ih (applyOp op s) (fun hm => hstop (List.mem_cons_of_mem op hm)) h']
    simp [h]

lemma activations_le_one : ∀ (ops : List (SysOp α)) (s : MsgState α β),
    SysOp.stop_op ∉ ops → activations ops s ≤ 1 := by
  intro ops
  induction ops with
  | nil => intro s _; simp [activations]
  | cons op rest ih =>
    intro s hstop
    have hstop' : SysOp.stop_op ∉ rest :=
      fun hm => hstop (List.mem_cons_of_mem op hm)
    cases hA : isActive s with
    | true =>
      rw [activations_zero_of_active (op :: rest) s hstop hA]
      omega
    | false =>
      cases hB : isActive (applyOp op s) with
      | true =>
        unfold activations
        rw [activations_zero_of_active rest (applyOp op s) hstop' hB]
        simp [hA, hB]
      | false =>
        unfold activations
        have := ih (applyOp op s) hstop'
        simp [hA, hB]
        omega

/-- C7 (amended): over any sequence of operations that does not contain
`stop`, the UNINITIALIZED→ACTIVE transition happens at most once and the
system never returns to UNINITIALIZED once ACTIVE; `stop` however resets
the system to UNINITIALIZED, after which a further `initialize` activates
it again (see the counterexample). -/
theorem ms_single_activation (ops : List (SysOp α)) (s : MsgState α β)
    (hstop : SysOp.stop_op ∉ ops) :
    activations ops s ≤ 1 ∧
    (isActive s = true → isActive (applyOps ops s) = true) :=
  ⟨activations_le_one ops s hstop,
   fun h => applyOps_active ops s hstop h⟩

/-- C7 witness: a stop-free run `initialize; send 5; serve` from a fresh
system activates at most once and stays ACTIVE. -/
theorem ms_single_activation_witness :
    (SysOp.stop_op ∉ [SysOp.initialize_op, SysOp.send (5 : Nat), SysOp.serve]) ∧
    (activations [SysOp.initialize_op, SysOp.send (5 : Nat), SysOp.serve]
        (initState : MsgState Nat Nat) ≤ 1 ∧
     (isActive (initState : MsgState Nat Nat) = true →
      isActive (applyOps [SysOp.initialize_op, SysOp.send (5 : Nat), SysOp.serve]
          (initState : MsgState Nat Nat)) = true)) :=
  ⟨by decide, ms_single_activation _ _ (by decide)⟩

end Msg

/-! ## Provider exit: C3 -/

namespace Exit

/-- C3: at the `async with` boundary of a provider cycle, cancellation is
handled specially — the provider clears its running flag, stops every
attached hook, and exits cleanly (the `CancelledError` is suppressed, not
reported); any other exception clears the running flag but leaves the
hooks unstopped and propagates out, terminating the cycle task. -/
theorem aexit_cancellation_clean_other_propagates (s : PRunState) :
    handleExit s ExcKind.cancelledError
      = ({ running := false,
           hooks := s.hooks.map (fun _ => { stopped := true }) },
         ExitResult.clean) ∧
    (∀ hk ∈ (handleExit s ExcKind.cancelledError).1.hooks,
        hk.stopped = true) ∧
    handleExit s ExcKind.otherExc
      = ({ s with running := false }, ExitResult.raised ExcKind.otherExc) ∧
    (handleExit s ExcKind.noExc).2 = ExitResult.clean := by
  refine ⟨rfl, ?_, rfl, rfl⟩
  intro hk hmem
  simp only [handleExit, aexit, List.mem_map] at hmem
  obtain ⟨a, _, rfl⟩ := hmem
  rfl

end Exit

/-! ## Complex provider: C2 -/

namespace Cpx

variable {α β γ δ : Type}

/-- C2 counterexample: in the squaring scenario — one hook squaring its
input, default pre/postprocessing — `send_wait_answer(7)` returns the
one-element aggregated list `[49]` (the default `postprocess_result`
returns the list of hook results), not the bare integer `49`. -/
theorem send_wait_answer_scenario_counterexample :
    scenario_send_wait_answer
      = Msg.RetrieveOutcome.immediate (PyVal.list [PyVal.int 49]) ∧
    PyVal.list [PyVal.int 49] ≠ PyVal.int 49 :=
  ⟨rfl, fun h => PyVal.noConfusion h⟩

/-- C2 (amended): every item taken from the input queue with correlation
id `k` has its aggregated, postprocessed result posted back to the output
queue tagged with that same id `k`; in the squaring scenario (single
squaring hook, default postprocessing) `send_wait_answer(7)` returns
`[49]`, the one-element aggregated list — it would return the bare `49`
only under a postprocessing override extracting the single element. -/
theorem complex_cycle_correlation (pre : α → γ) (acts : List (γ → δ))
    (post : List δ → β) (sched : List Nat) (c : α) (k : Nat)
    (rest : List (α × Nat)) (m : Msg.MsgState α β)
    (hperm : sched.Perm (List.range acts.length))
    (hin : m.input_queue = some ((c, k) :: rest)) :
    complex_cycle_step pre acts post sched
        { msg := m, hooks := Cycle.initCState acts.length }
      = some { msg := { m with
                         input_queue := some rest,
                         output_queue := m.output_queue
                           ++ [(post (acts.map (fun a => a (pre c))), k)] },
               hooks := Cycle.initCState acts.length } ∧
    scenario_send_wait_answer
      = Msg.RetrieveOutcome.immediate (PyVal.list [PyVal.int 49]) := by
  refine ⟨?_, rfl⟩
  have hoc := Cycle.one_cycle_initCState acts (pre c) sched hperm
  unfold Cycle.one_cycle at hoc
  unfold complex_cycle_step
  simp only [hin, hoc]

/-- C2 witness: one incrementing-free configuration — identity
preprocessing, single squaring hook, length postprocessing — on input
`(7, 5)`: the result is posted back with the same id `5`. -/
theorem complex_cycle_correlation_witness :
    ([0].Perm (List.range 1)) ∧
    (⟨[], some [((7 : Nat), 5)], [], 9, [], []⟩
        : Msg.MsgState Nat Nat).input_queue = some ((7, 5) :: []) ∧
    (complex_cycle_step (fun c => c) [fun x => x * x] (fun vs => vs.length)
        [0] { msg := (⟨[], some [((7 : Nat), 5)], [], 9, [], []⟩
                : Msg.MsgState Nat Nat), hooks := Cycle.initCState 1 }
      = some { msg := ⟨[], some [], [(1, 5)], 9, [], []⟩,
               hooks := Cycle.initCState 1 } ∧
     scenario_send_wait_answer
      = Msg.RetrieveOutcome.immediate (PyVal.list [PyVal.int 49])) :=
  ⟨by decide, rfl,
   complex_cycle_correlation (fun c => c) [fun x => x * x] (fun vs => vs.length)
     [0] 7 5 [] ⟨[], some [(7, 5)], [], 9, [], []⟩ (by decide) rfl⟩

end Cpx

/-! ## Dynamic hook attachment: C8 -/

namespace Wire

variable {α : Type}

lemma modifyHook_straight_queues (s : WState α) (i : Nat) (f : WHook α → WHook α) :
    (modifyHook s i f).straight_queues = s.straight_queues := rfl

lemma modifyHook_running (s : WState α) (i : Nat) (f : WHook α → WHook α) :
    (modifyHook s i f).running = s.running := rfl

lemma modifyHook_length (s : WState α) (i : Nat) (f : WHook α → WHook α) :
    (modifyHook s i f).asynio_hooks.length = s.asynio_hooks.length :=
  Cycle.modifyAt_length _ _ _

lemma put_all_straight_queues (w : List Nat) (d : α) :
    ∀ s : WState α, (put_all w d s).straight_queues = s.straight_queues := by
  induction w with
  | nil => intro s; rfl
  | cons j rest ih => intro s; exact ih _

lemma put_all_running (w : List Nat) (d : α) :
    ∀ s : WState α, (put_all w d s).running = s.running := by
  induction w with
  | nil => intro s; rfl
  | cons j rest ih => intro s; exact ih _

lemma put_all_length (w : List Nat) (d : α) :
    ∀ s : WState α, (put_all w d s).asynio_hooks.length = s.asynio_hooks.length := by
  induction w with
  | nil => intro s; rfl
  | cons j rest ih =>
    intro s
    exact (ih _).trans (modifyHook_length s j _)

lemma put_all_get?_not_mem (w : List Nat) (d : α) (i : Nat) :
    ∀ s : WState α, i ∉ w →
      (put_all w d s).asynio_hooks.get? i = s.asynio_hooks.get? i := by
  induction w with
  | nil => intro s _; rfl
  | cons j rest ih =>
    intro s hni
    have hji : j ≠ i := fun h => hni (h ▸ List.mem_cons_self j rest)
    have h1 : (modifyHook s j
        (fun h => { asyncio_queue := h.asyncio_queue.map (fun q => q ++ [d]) })
        : WState α).asynio_hooks.get? i = s.asynio_hooks.get? i :=
      Cycle.modifyAt_get?_ne _ _ _ _ hji
    exact (ih _ (fun h => hni (List.mem_cons_of_mem j h))).trans h1

lemma put_all_get?_once (w : List Nat) (d : α) (i : Nat) :
    ∀ (s : WState α) (q : List α), w.count i = 1 →
      s.asynio_hooks.get? i = some { asyncio_queue := some q } →
      (put_all w d s).asynio_hooks.get? i
        = some { asyncio_queue := some (q ++ [d]) } := by
  induction w with
  | nil => intro s q hcount _; simp at hcount
  | cons j rest ih =>
    intro s q hcount hq
    by_cases hji : j = i
    · subst hji
      rw [List.count_cons_self] at hcount
      have hnotmem : j ∉ rest := List.not_mem_of_count_eq_zero (by omega)
      have h1 : (modifyHook s j
          (fun h => { asyncio_queue := h.asyncio_queue.map (fun q => q ++ [d]) })
          : WState α).asynio_hooks.get? j
          = some { asyncio_queue := some (q ++ [d]) } := by
        show (Cycle.modifyAt s.asynio_hooks j _).get? j = _
        rw [Cycle.modifyAt_get?_self, hq]
        rfl
      exact (put_all_get?_not_mem rest d j _ hnotmem).trans h1
    · have hcount' : rest.count i = 1 := by
        rw [List.count_cons_of_ne (Ne.symm hji)] at hcount
        exact hcount
      have h1 : (modifyHook s j
          (fun h => { asyncio_queue := h.asyncio_queue.map (fun q => q ++ [d]) })
          : WState α).asynio_hooks.get? i = s.asynio_hooks.get? i :=
        Cycle.modifyAt_get?_ne _ _ _ _ hji
      exact ih _ q hcount' (h1.trans hq)

lemma broadcasts_straight_queues (ds : List α) :
    ∀ s : WState α, (broadcasts s ds).straight_queues = s.straight_queues := by
  induction ds with
  | nil => intro s; rfl
  | cons d ds ih =>
    intro s
    exact (ih _).trans (put_all_straight_queues s.straight_queues d s)

lemma broadcasts_running (ds : List α) :
    ∀ s : WState α, (broadcasts s ds).running = s.running := by
  induction ds with
  | nil => intro s; rfl
  | cons d ds ih =>
    intro s
    exact (ih _).trans (put_all_running s.straight_queues d s)

lemma broadcasts_length (ds : List α) :
    ∀ s : WState α, (broadcasts s ds).asynio_hooks.length = s.asynio_hooks.length := by
  induction ds with
  | nil => intro s; rfl
  | cons d ds ih =>
    intro s
    exact (ih _).trans (put_all_length s.straight_queues d s)

lemma broadcasts_get?_once (ds : List α) :
    ∀ (s : WState α) (i : Nat) (q : List α), s.straight_queues.count i = 1 →
      s.asynio_hooks.get? i = some { asyncio_queue := some q } →
      (broadcasts s ds).asynio_hooks.get? i
        = some { asyncio_queue := some (q ++ ds) } := by
  induction ds with
  | nil => intro s i q _ hq; simpa using hq
  | cons d ds ih =>
    intro s i q hcount hq
    have h1 := put_all_get?_once s.straight_queues d i s q hcount hq
    have h2 : (notify_all_hooks s d).straight_queues.count i = 1 := by
      show (put_all s.straight_queues d s).straight_queues.count i = 1
      rw [put_all_straight_queues]
      exact hcount
    have h3 := ih (notify_all_hooks s d) i (q ++ [d]) h2 h1
    simpa using h3

lemma set_concat_length (l : List γ) (x y : γ) :
    (l ++ [x]).set l.length y = l ++ [y] := by
  induction l with
  | nil => rfl
  | cons a rest ih => simp [List.set, ih]

lemma modifyAt_concat_length (l : List γ) (x : γ) (f : γ → γ) :
    Cycle.modifyAt (l ++ [x]) l.length f = l ++ [f x] := by
  unfold Cycle.modifyAt
  rw [List.get?_concat_length]
  exact set_concat_length l x (f x)

lemma add_hook_running_eq (s : WState α) (h : WHook α)
    (hrun : s.running = true) (hfresh : h.asyncio_queue = none) :
    add_hook s h
      = { asynio_hooks := s.asynio_hooks ++ [{ asyncio_queue := some [] }],
          straight_queues := s.straight_queues ++ [s.asynio_hooks.length],
          running := s.running } := by
  unfold add_hook start_hook modifyHook
  rw [hrun]
  simp only [if_pos]
  rw [modifyAt_concat_length]
  unfold get_straight_queue
  rw [hfresh]

/-- C8: for a running provider, `add_hook` appends the hook at the end of
the hook list and wires its (freshly created, empty) inbound queue
immediately; an item broadcast strictly before the `add_hook` call never
reaches the new hook's inbound queue, while every item broadcast after
the add is delivered to it, in order — the new hook's inbound queue ends
up holding exactly the items broadcast after the add. -/
theorem add_hook_wiring_and_delivery (pre post : List α) (s : WState α)
    (hnew : WHook α) (hrun : s.running = true)
    (hfresh : hnew.asyncio_queue = none)
    (hwf : ∀ i ∈ s.straight_queues, i < s.asynio_hooks.length) :
    (add_hook (broadcasts s pre) hnew).asynio_hooks
      = (broadcasts s pre).asynio_hooks ++ [{ asyncio_queue := some [] }] ∧
    (add_hook (broadcasts s pre) hnew).straight_queues
      = s.straight_queues ++ [s.asynio_hooks.length] ∧
    (broadcasts (add_hook (broadcasts s pre) hnew) post).asynio_hooks.get?
        s.asynio_hooks.length
      = some { asyncio_queue := some post } := by
  have hrun1 : (broadcasts s pre).running = true :=
    (broadcasts_running pre s).trans hrun
  have hlen1 : (broadcasts s pre).asynio_hooks.length = s.asynio_hooks.length :=
    broadcasts_length pre s
  have hsq1 : (broadcasts s pre).straight_queues = s.straight_queues :=
    broadcasts_straight_queues pre s
  have hadd := add_hook_running_eq (broadcasts s pre) hnew hrun1 hfresh
  refine ⟨by rw [hadd], by rw [hadd, hsq1, hlen1], ?_⟩
  have hnmem : s.asynio_hooks.length ∉ s.straight_queues := by
    intro hmem
    exact absurd (hwf _ hmem) (Nat.lt_irrefl _)
  have hcount : (add_hook (broadcasts s pre) hnew).straight_queues.count
      s.asynio_hooks.length = 1 := by
    rw [hadd, hsq1, hlen1, List.count_append]
    rw [List.count_eq_zero_of_not_mem hnmem]
    simp
  have hget : (add_hook (broadcasts s pre) hnew).asynio_hooks.get?
      s.asynio_hooks.length = some { asyncio_queue := some [] } := by
    rw [hadd]
    rw [← hlen1]
    exact List.get?_concat_length _ _
  have h := broadcasts_get?_once post (add_hook (broadcasts s pre) hnew)
    s.asynio_hooks.length [] hcount hget
  simpa using h

/-- C8 witness: a running provider with one wired hook; item `1` is
broadcast, then a fresh hook is added, then items `2, 3` are broadcast:
the new hook is appended and wired at index `1`, and its inbound queue
ends up holding exactly `[2, 3]`. -/
theorem add_hook_wiring_and_delivery_witness :
    ((⟨[⟨some []⟩], [0], true⟩ : WState Nat).running = true) ∧
    ((⟨none⟩ : WHook Nat).asyncio_queue = none) ∧
    (∀ i ∈ (⟨[⟨some []⟩], [0], true⟩ : WState Nat).straight_queues,
        i < (⟨[⟨some []⟩], [0], true⟩ : WState Nat).asynio_hooks.length) ∧
    ((add_hook (broadcasts (⟨[⟨some []⟩], [0], true⟩ : WState Nat) [1]) ⟨none⟩).asynio_hooks
      = (broadcasts (⟨[⟨some []⟩], [0], true⟩ : WState Nat) [1]).asynio_hooks
        ++ [{ asyncio_queue := some [] }] ∧
     (add_hook (broadcasts (⟨[⟨some []⟩], [0], true⟩ : WState Nat) [1]) ⟨none⟩).straight_queues
      = (⟨[⟨some []⟩], [0], true⟩ : WState Nat).straight_queues
        ++ [(⟨[⟨some []⟩], [0], true⟩ : WState Nat).asynio_hooks.length] ∧
     (broadcasts (add_hook (broadcasts (⟨[⟨some []⟩], [0], true⟩ : WState Nat) [1]) ⟨none⟩)
        [2, 3]).asynio_hooks.get?
          (⟨[⟨some []⟩], [0], true⟩ : WState Nat).asynio_hooks.length
      = some { asyncio_queue := some [2, 3] }) :=
  ⟨rfl, rfl, by decide,
   add_hook_wiring_and_delivery [1] [2, 3] ⟨[⟨some []⟩], [0], true⟩ ⟨none⟩
     rfl rfl (by decide)⟩

end Wire

/-! ## Queue getter identity: C9 -/

namespace HookQ

/-- C9: `get_straight_queue` and `get_callback_queue` are idempotent
creators: after any call the hook holds the returned queue instance, and
a subsequent call returns the very same queue id with the hook and
allocator unchanged — every later call on the same hook returns the
identical instance. -/
theorem queue_getters_idempotent (h : HState) (w : QAlloc) :
    get_straight_queue (get_straight_queue h w).2.1 (get_straight_queue h w).2.2
      = get_straight_queue h w ∧
    (get_straight_queue h w).2.1.asyncio_queue = some (get_straight_queue h w).1 ∧
    get_callback_queue (get_callback_queue h w).2.1 (get_callback_queue h w).2.2
      = get_callback_queue h w ∧
    (get_callback_queue h w).2.1.callback_queue = some (get_callback_queue h w).1 := by
  cases hs : h.asyncio_queue <;> cases hc : h.callback_queue <;>
    simp [get_straight_queue, get_callback_queue, hs, hc]

end HookQ

/-! ## Defensive copies: C10 -/

namespace CopyM

variable {α : Type}

lemma alloc_copy (h : Heap α) (a : Nat) (l : List α) (ha : a < h.store.length) :
    (allocList h (readList h a)).1 ≠ a ∧
    readList (allocList h (readList h a)).2 (allocList h (readList h a)).1
      = readList h a ∧
    readList
        (writeList (allocList h (readList h a)).2 (allocList h (readList h a)).1 l)
        a
      = readList h a := by
  have hne : h.store.length ≠ a := by omega
  refine ⟨hne, ?_, ?_⟩
  · show ((h.store ++ [readList h a]).get? h.store.length).getD [] = readList h a
    rw [List.get?_concat_length]
    rfl
  · show (((h.store ++ [readList h a]).set h.store.length l).get? a).getD []
        = readList h a
    rw [List.get?_set_ne _ _ hne, List.get?_append ha]
    rfl

/-- C10: the collection getters return defensive copies — each of
`AbstractContentProvider.get_aliases`, `AbstractHook.get_aliases` and
`PHFSystem.get_providers` allocates a fresh list (a different object from
the internal container) with the same contents, and overwriting the
returned list's contents with any `l` leaves the internal container's
contents unchanged. -/
theorem collection_getters_defensive_copies (h : Heap α) (a : Nat) (l : List α)
    (ha : a < h.store.length) :
    ((provider_get_aliases h a).1 ≠ a ∧
     readList (provider_get_aliases h a).2 (provider_get_aliases h a).1
       = readList h a ∧
     readList (writeList (provider_get_aliases h a).2 (provider_get_aliases h a).1 l) a
       = readList h a) ∧
    ((hook_get_aliases h a).1 ≠ a ∧
     readList (hook_get_aliases h a).2 (hook_get_aliases h a).1 = readList h a ∧
     readList (writeList (hook_get_aliases h a).2 (hook_get_aliases h a).1 l) a
       = readList h a) ∧
    ((get_providers h a).1 ≠ a ∧
     readList (get_providers h a).2 (get_providers h a).1 = readList h a ∧
     readList (writeList (get_providers h a).2 (get_providers h a).1 l) a
       = readList h a) :=
  ⟨alloc_copy h a l ha, alloc_copy h a l ha, alloc_copy h a l ha⟩

/-- C10 witness: a heap with one list object `[1, 2]` at address `0`: the
getter returns a fresh address with contents `[1, 2]`, and overwriting the
copy with `[9]` leaves address `0` still reading `[1, 2]`. -/
theorem collection_getters_defensive_copies_witness :
    (0 < (⟨[[1, 2]]⟩ : Heap Nat).store.length) ∧
    (((provider_get_aliases (⟨[[1, 2]]⟩ : Heap Nat) 0).1 ≠ 0 ∧
      readList (provider_get_aliases (⟨[[1, 2]]⟩ : Heap Nat) 0).2
          (provider_get_aliases (⟨[[1, 2]]⟩ : Heap Nat) 0).1
        = readList (⟨[[1, 2]]⟩ : Heap Nat) 0 ∧
      readList
          (writeList (provider_get_aliases (⟨[[1, 2]]⟩ : Heap Nat) 0).2
            (provider_get_aliases (⟨[[1, 2]]⟩ : Heap Nat) 0).1 [9])
          0
        = readList (⟨[[1, 2]]⟩ : Heap Nat) 0) ∧
     ((hook_get_aliases (⟨[[1, 2]]⟩ : Heap Nat) 0).1 ≠ 0 ∧
      readList (hook_get_aliases (⟨[[1, 2]]⟩ : Heap Nat) 0).2
          (hook_get_aliases (⟨[[1, 2]]⟩ : Heap Nat) 0).1
        = readList (⟨[[1, 2]]⟩ : Heap Nat) 0 ∧
      readList
          (writeList (hook_get_aliases (⟨[[1, 2]]⟩ : Heap Nat) 0).2
            (hook_get_aliases (⟨[[1, 2]]⟩ : Heap Nat) 0).1 [9])
          0
        = readList (⟨[[1, 2]]⟩ : Heap Nat) 0) ∧
     ((get_providers (⟨[[1, 2]]⟩ : Heap Nat) 0).1 ≠ 0 ∧
      readList (get_providers (⟨[[1, 2]]⟩ : Heap Nat) 0).2
          (get_providers (⟨[[1, 2]]⟩ : Heap Nat) 0).1
        = readList (⟨[[1, 2]]⟩ : Heap Nat) 0 ∧
      readList
          (writeList (get_providers (⟨[[1, 2]]⟩ : Heap Nat) 0).2
            (get_providers (⟨[[1, 2]]⟩ : Heap Nat) 0).1 [9])
          0
        = readList (⟨[[1, 2]]⟩ : Heap Nat) 0)) :=
  ⟨by decide, collection_getters_defensive_copies ⟨[[1, 2]]⟩ 0 [9] (by decide)⟩

end CopyM
